import Mathlib

/-!
Shallow embedding of the shape/view-geometry core of
`src/aten/src/ATen/native/TensorShape.cpp`.

A tensor handle is its geometry: `sizes`, `strides` (element-count units,
`int64_t` in the source, embedded as `Int`) and a `storage_offset`.  The
storage buffer itself is irrelevant to the functions verified here: every
operation is pure metadata algebra.

The source is compiled with `USE_TH_SIZE_ZERO_DIM` undefined (the
configuration the repository documentation describes), so every
`#ifndef USE_TH_SIZE_ZERO_DIM` branch is active: `slice` returns a fresh
empty tensor when the clamped length is zero, `narrow` rejects
`length <= 0`, `infer_size` collapses zero-element results to `[0]`, and
`inferUnsqueezeGeometry` rejects zero-element tensors.
-/

namespace ATen

/-- Failure kinds of the geometry core, one per distinct error site of
`TensorShape.cpp`, named after the error taxonomy of the specification. -/
inductive Err where
  | zeroDimTensor
  | invalidDimension
  | indexOutOfRange
  | nonPositiveStep
  | shapeMismatch
  | invalidShapeDimension
  | emptyTensor
  | repeatedDimension
  | dimCountMismatch
  | multipleInferredDims
  | negativeSplitSize
  | zeroSplitSize
  | negativeSplitEntry
deriving DecidableEq, Repr

/-- Geometry of a tensor handle: `sizes`, `strides`, `storage_offset`
(all `int64_t` in the source, embedded as `Int`). -/
structure Tensor where
  sizes : List Int
  strides : List Int
  storage_offset : Int
deriving DecidableEq, Repr

/-- Element count: product of the sizes (`1` for a rank-0 tensor). -/
def Tensor.numel (t : Tensor) : Int := t.sizes.prod

/-- Rank: number of dimensions. -/
def Tensor.rank (t : Tensor) : Nat := t.sizes.length

/-- Result of `slice`: under the active `#ifndef USE_TH_SIZE_ZERO_DIM`
branch, a zero clamped length produces a fresh empty tensor
(`self.type().tensor()`, sharing nothing with the source) instead of a
strided view. -/
inductive SliceResult where
  | view (t : Tensor)
  | freshEmpty
deriving DecidableEq, Repr

/-- Modelled from the spec: `maybe_wrap_dim` lives in
`ATen/WrapDimUtils.h`, which is not part of this repository snapshot;
section 4.1 of the specification gives its contract: add `rank` to a
negative index, then require the result to lie in `[0, max(rank,1))`,
failing with `InvalidDimension` otherwise. -/
def maybe_wrap_dim (d rank : Int) : Except Err Int :=
  let d2 := if d < 0 then d + rank else d
  if d2 < 0 ∨ d2 ≥ max rank 1 then .error .invalidDimension else .ok d2

/-- Translation of `slice` (TensorShape.cpp:294-331): wrap `dim`, reject
`step <= 0`, wrap negative `start`/`ending` by `sizes[dim]`, clamp both,
and either build the strided view or, when the clamped length is zero,
return a fresh empty tensor. -/
def slice (t : Tensor) (dim start ending step : Int) : Except Err SliceResult :=
  let ndim : Int := t.sizes.length
  if ndim = 0 then .error .zeroDimTensor
  else match maybe_wrap_dim dim ndim with
  | .error e => .error e
  | .ok d =>
    let sizes := t.sizes
    let strides := t.strides
    if step ≤ 0 then .error .nonPositiveStep
    else
      let sd := sizes.getD d.toNat 0
      let std := strides.getD d.toNat 0
      let start1 := if start < 0 then start + sd else start
      let end1 := if ending < 0 then ending + sd else ending
      let start2 := if start1 < 0 then 0 else if start1 ≥ sd then sd else start1
      let end2 := if end1 < start2 then start2 else if end1 ≥ sd then sd else end1
      let storage_offset := t.storage_offset + start2 * std
      let len := end2 - start2
      if len = 0 then .ok .freshEmpty
      else .ok (.view ⟨sizes.set d.toNat ((len + step - 1).tdiv step),
                       strides.set d.toNat (std * step),
                       storage_offset⟩)

/-- Translation of `select` (TensorShape.cpp:272-292): wrap `dim`, check
`index` against `[-size, size)`, wrap a negative index once, drop the
dimension and advance the offset. -/
def select (t : Tensor) (dim index : Int) : Except Err Tensor :=
  let ndim : Int := t.sizes.length
  if ndim = 0 then .error .zeroDimTensor
  else match maybe_wrap_dim dim ndim with
  | .error e => .error e
  | .ok d =>
    let size := t.sizes.getD d.toNat 0
    if index < -size ∨ index ≥ size then .error .indexOutOfRange
    else
      let index2 := if index < 0 then index + size else index
      let storage_offset := t.storage_offset + index2 * t.strides.getD d.toNat 0
      .ok ⟨t.sizes.eraseIdx d.toNat, t.strides.eraseIdx d.toNat, storage_offset⟩

/-- Translation of `narrow` (TensorShape.cpp:146-160): rank and `dim`
checks, `start >= 0`, the active-branch check `length <= 0 || start >
cur_size - length`, then delegation to `slice(dim, start, start+length, 1)`. -/
def narrow (t : Tensor) (dim start length : Int) : Except Err SliceResult :=
  if t.sizes.length = 0 then .error .zeroDimTensor
  else match maybe_wrap_dim dim (t.sizes.length : Int) with
  | .error e => .error e
  | .ok d =>
    let cur_size := t.sizes.getD d.toNat 0
    if start < 0 then .error .indexOutOfRange
    else if length ≤ 0 ∨ start > cur_size - length then .error .indexOutOfRange
    else slice t dim start (start + length) 1

/-- Loop of `infer_size` (TensorShape.cpp:221-232): accumulate the product
of the non-negative entries and record the position of the single `-1`. -/
def inferLoop : List Int → Nat → Int → Option Nat → Except Err (Int × Option Nat)
  | [], _, newsize, inferDim => .ok (newsize, inferDim)
  | s :: rest, idx, newsize, inferDim =>
    if s = -1 then
      match inferDim with
      | some _ => .error .multipleInferredDims
      | none => inferLoop rest (idx + 1) newsize (some idx)
    else if s ≥ 0 then inferLoop rest (idx + 1) (newsize * s) inferDim
    else .error .invalidShapeDimension

/-- Translation of `infer_size` (TensorShape.cpp:217-255): validate the
shape, fill the free dimension, and (active branch) collapse a
zero-element result to `[0]`. -/
def infer_size (shape : List Int) (numel : Int) : Except Err (List Int) :=
  match inferLoop shape 0 1 none with
  | .error e => .error e
  | .ok (newsize, inferDim) =>
    if numel = newsize ∨ (inferDim.isSome ∧ newsize > 0 ∧ numel.tmod newsize = 0) then
      match inferDim with
      | some d =>
        if newsize = 0 then .error .shapeMismatch
        else if numel = 0 then .ok [0]
        else .ok (shape.set d (numel.tdiv newsize))
      | none =>
        if numel = 0 then .ok [0] else .ok shape
    else .error .shapeMismatch

/-- Loop of `split_with_sizes` (TensorShape.cpp:365-375) followed by the
final sum check (TensorShape.cpp:376-382): each entry must be
non-negative, each part is a `narrow` at the running start index, and at
the end the running sum must equal `dim_size` exactly. -/
def splitWithSizesGo (t : Tensor) (dim dim_size : Int) :
    List Int → Int → Except Err (List SliceResult)
  | [], start_idx =>
    if start_idx = dim_size then .ok [] else .error .shapeMismatch
  | l :: rest, start_idx =>
    if l < 0 then .error .negativeSplitEntry
    else match narrow t dim start_idx l with
    | .error e => .error e
    | .ok v =>
      match splitWithSizesGo t dim dim_size rest (start_idx + l) with
      | .error e => .error e
      | .ok tail => .ok (v :: tail)

/-- Translation of `split_with_sizes` (TensorShape.cpp:357-384). -/
def split_with_sizes (t : Tensor) (split_sizes : List Int) (dim : Int) :
    Except Err (List SliceResult) :=
  if t.sizes.length = 0 then .error .zeroDimTensor
  else match maybe_wrap_dim dim (t.sizes.length : Int) with
  | .error e => .error e
  | .ok d =>
    let dim_size := t.sizes.getD d.toNat 0
    splitWithSizesGo t dim dim_size split_sizes 0

/-- Loop of `split` (TensorShape.cpp:350-353): with `k + 1` parts still to
produce and `i` the current part index, the part length is `split_size`
except for the very last part (`k = 0`), which gets `last_split_size`. -/
def splitParts (t : Tensor) (dim split_size last_split_size : Int) :
    Nat → Nat → Except Err (List SliceResult)
  | 0, _ => .ok []
  | k + 1, i =>
    let length := if k = 0 then last_split_size else split_size
    match narrow t dim ((i : Int) * split_size) length with
    | .error e => .error e
    | .ok v =>
      match splitParts t dim split_size last_split_size k (i + 1) with
      | .error e => .error e
      | .ok rest => .ok (v :: rest)

/-- Translation of `split` (TensorShape.cpp:333-355): rank and sign
checks, part count `max(ceil(dim_size/split_size), 1)` (or `1` when
`split_size == 0`), last part length
`split_size - (split_size*num_splits - dim_size)`, then the `narrow`
loop. -/
def split (t : Tensor) (split_size dim : Int) : Except Err (List SliceResult) :=
  if t.sizes.length = 0 then .error .zeroDimTensor
  else if split_size < 0 then .error .negativeSplitSize
  else match maybe_wrap_dim dim (t.sizes.length : Int) with
  | .error e => .error e
  | .ok d =>
    let dim_size := t.sizes.getD d.toNat 0
    if split_size > 0 ∨ dim_size = 0 then
      let num_splits : Int :=
        if split_size ≠ 0 then max ((dim_size + split_size - 1).tdiv split_size) 1 else 1
      let last_split_size := split_size - (split_size * num_splits - dim_size)
      splitParts t dim split_size last_split_size num_splits.toNat 0
    else .error .zeroSplitSize

/-- Translation of `inferUnsqueezeGeometry` (TensorShape.cpp:532-546):
reject zero-element tensors (active branch), then insert a size-1
dimension at `dim` with stride `sizes[dim]*strides[dim]`, or `1` when
inserting at the end. -/
def inferUnsqueezeGeometry (t : Tensor) (dim : Int) :
    Except Err (List Int × List Int) :=
  if t.numel = 0 then .error .emptyTensor
  else
    let new_stride : Int :=
      if dim ≥ (t.sizes.length : Int) then 1
      else t.sizes.getD dim.toNat 0 * t.strides.getD dim.toNat 0
    .ok (t.sizes.insertIdx dim.toNat 1, t.strides.insertIdx dim.toNat new_stride)

/-- Translation of `unsqueeze` (TensorShape.cpp:594-599): wrap `dim`
against `rank + 1`, compute the geometry, build the view (the two-argument
`as_strided` keeps the storage offset). -/
def unsqueeze (t : Tensor) (dim : Int) : Except Err Tensor :=
  match maybe_wrap_dim dim ((t.sizes.length : Int) + 1) with
  | .error e => .error e
  | .ok d =>
    match inferUnsqueezeGeometry t d with
    | .error e => .error e
    | .ok g => .ok ⟨g.1, g.2, t.storage_offset⟩

/-- Translation of the dense path of `transpose` (TensorShape.cpp:460-478):
wrap both dimensions, return `self` unchanged when they coincide,
otherwise swap the two entries of sizes and strides. -/
def transpose (t : Tensor) (dim0 dim1 : Int) : Except Err Tensor :=
  let ndims : Int := t.sizes.length
  match maybe_wrap_dim dim0 ndims with
  | .error e => .error e
  | .ok d0 =>
    match maybe_wrap_dim dim1 ndims with
    | .error e => .error e
    | .ok d1 =>
      if d0 = d1 then .ok t
      else
        .ok ⟨(t.sizes.set d0.toNat (t.sizes.getD d1.toNat 0)).set d1.toNat (t.sizes.getD d0.toNat 0),
             (t.strides.set d0.toNat (t.strides.getD d1.toNat 0)).set d1.toNat (t.strides.getD d0.toNat 0),
             t.storage_offset⟩

/-- Loop of `permute` (TensorShape.cpp:172-180): wrap each requested
dimension, reject repeats via the `seen` mask, and gather the permuted
sizes and strides. -/
def permuteGo (t : Tensor) : List Int → List Bool → Except Err (List Int × List Int)
  | [], _ => .ok ([], [])
  | d :: rest, seen =>
    match maybe_wrap_dim d (t.sizes.length : Int) with
    | .error e => .error e
    | .ok dw =>
      if seen.getD dw.toNat false then .error .repeatedDimension
      else match permuteGo t rest (seen.set dw.toNat true) with
      | .error e => .error e
      | .ok (ss, ts) =>
        .ok (t.sizes.getD dw.toNat 0 :: ss, t.strides.getD dw.toNat 0 :: ts)

/-- Translation of `permute` (TensorShape.cpp:162-182). -/
def permute (t : Tensor) (dims : List Int) : Except Err Tensor :=
  if dims.length ≠ t.sizes.length then .error .dimCountMismatch
  else match permuteGo t dims (List.replicate t.sizes.length false) with
  | .error e => .error e
  | .ok (ss, ts) => .ok ⟨ss, ts, t.storage_offset⟩

/-- Modelled from the spec: `inferExpandGeometry` lives in
`ATen/ExpandUtils.h`, which is not part of this repository snapshot;
section 4.2 of the specification gives its contract: trailing dimensions
align with the source, a source dimension equal to the target keeps its
stride, a source dimension of size 1 broadcasts with stride 0, added
leading dimensions take the target size with stride 0, and any other
disagreement is a `ShapeMismatch`. -/
def expandDims (t : Tensor) (lead : Nat) : List Int → Nat → Except Err (List Int × List Int)
  | [], _ => .ok ([], [])
  | s :: rest, i =>
    if i < lead then
      match expandDims t lead rest (i + 1) with
      | .error e => .error e
      | .ok (ss, ts) => .ok (s :: ss, 0 :: ts)
    else
      let srcSize := t.sizes.getD (i - lead) 0
      if srcSize = s then
        match expandDims t lead rest (i + 1) with
        | .error e => .error e
        | .ok (ss, ts) => .ok (s :: ss, t.strides.getD (i - lead) 0 :: ts)
      else if srcSize = 1 then
        match expandDims t lead rest (i + 1) with
        | .error e => .error e
        | .ok (ss, ts) => .ok (s :: ss, 0 :: ts)
      else .error .shapeMismatch

/-- Modelled from the spec: wrapper computing the whole expanded geometry,
see `expandDims`. -/
def inferExpandGeometry (t : Tensor) (size : List Int) :
    Except Err (List Int × List Int) :=
  expandDims t (size.length - t.sizes.length) size 0

/-- Translation of `expand` (TensorShape.cpp:111-132): the rank check,
then `inferExpandGeometry`; the `implicit` flag is accepted but never read
by the geometry computation (it exists only for the excluded autograd
tracer, see the comment at TensorShape.cpp:112-117). -/
def expand (t : Tensor) (size : List Int) (isImplicit : Bool) : Except Err Tensor :=
  if size.length < t.sizes.length then .error .dimCountMismatch
  else match inferExpandGeometry t size with
  | .error e => .error e
  | .ok g => .ok ⟨g.1, g.2, t.storage_offset⟩

/-- Identity permutation `[0, 1, ..., n-1]` as signed dimension indices. -/
def idPerm (n : Nat) : List Int := (List.range n).map (Nat.cast : Nat → Int)

/-- Expected value of `split_with_sizes` on an all-positive, exactly
summing size list: one narrowed view per entry, each at the running start
offset, stated with explicit geometry. -/
def swsSpecParts (t : Tensor) (dimn : Nat) : List Int → Int → List SliceResult
  | [], _ => []
  | l :: rest, start =>
    SliceResult.view ⟨t.sizes.set dimn l, t.strides,
        t.storage_offset + start * t.strides.getD dimn 0⟩
      :: swsSpecParts t dimn rest (start + l)

/-- Expected value of `split` on a positive `split_size` and positive
dimension size: with `k + 1` parts still to produce and `i` the current
part index, every part has length `s` except the last (`k = 0`), which
has length `d - s * i`. -/
def splitSpecParts (t : Tensor) (dimn : Nat) (s d : Int) : Nat → Nat → List SliceResult
  | 0, _ => []
  | k + 1, i =>
    SliceResult.view ⟨t.sizes.set dimn (if k = 0 then d - s * (i : Int) else s), t.strides,
        t.storage_offset + (i : Int) * s * t.strides.getD dimn 0⟩
      :: splitSpecParts t dimn s d k (i + 1)

/-- Wrapping of a possibly negative slice endpoint by the dimension size,
per the claim wording. -/
def wrapIdx (x sd : Int) : Int := if x < 0 then x + sd else x

/-- Clamping of the (wrapped) slice start into [0, sd], per the claim
wording. -/
def clampedStart (start sd : Int) : Int := max 0 (min (wrapIdx start sd) sd)

/-- Clamping of the (wrapped) slice end into [start2, sd], forcing it up
to the clamped start when it falls below it, per the claim wording. -/
def clampedEnd (ending sd start2 : Int) : Int := max start2 (min (wrapIdx ending sd) sd)

end ATen

deriving instance DecidableEq for Except

namespace ATen

/-- Normalization is the identity on an index already in `[0, rank)`. -/
lemma maybe_wrap_dim_ok {d n : Int} (h0 : 0 ≤ d) (h1 : d < n) :
    maybe_wrap_dim d n = .ok d := by
  unfold maybe_wrap_dim
  rw [if_neg (by omega), if_neg (by omega)]

/-- Writing back the element already stored at a valid index is a no-op. -/
lemma set_getD_self (l : List Int) (i : Nat) (_h : i < l.length) :
    l.set i (l.getD i 0) = l := by
  apply List.ext_getElem
  · simp
  · intro n h1 h2
    rw [List.getElem_set]
    split
    · next heq => subst heq; rw [List.getD_eq_getElem _ _ h2]
    · rfl

/-- Setting one index leaves `getD` at any other index unchanged. -/
lemma getD_set_ne (l : List Bool) {i j : Nat} (h : i ≠ j) (a : Bool) :
    (l.set i a).getD j false = l.getD j false := by
  rw [List.getD_eq_getElem?_getD, List.getD_eq_getElem?_getD, List.getElem?_set_ne h]

/-- Reading a replicated `false` mask yields `false` at every index. -/
lemma getD_replicate_false (n j : Nat) :
    (List.replicate n false).getD j false = false := by
  rw [List.getD_eq_getElem?_getD]
  rcases h : (List.replicate n false)[j]? with _ | b
  · rfl
  · simp only [List.eq_of_mem_replicate (List.getElem?_mem h)]
    rfl

/-- Gathering every index of a list in order reproduces the list. -/
lemma range_map_getD (l : List Int) :
    (List.range l.length).map (fun i => l.getD i 0) = l := by
  apply List.ext_getElem
  · simp
  · intro n h1 h2
    simp only [List.getElem_map, List.getElem_range]
    rw [List.getD_eq_getElem _ _ h2]

/-- Round-up division bounds: for `0 < s` and `0 ≤ d`, the quotient
`(d + s - 1).tdiv s` is the least integer `q` with `d ≤ s * q`. -/
lemma ceil_bounds {d s : Int} (hs : 0 < s) (hd : 0 ≤ d) :
    d ≤ s * ((d + s - 1).tdiv s) ∧ s * ((d + s - 1).tdiv s) < d + s := by
  rw [Int.tdiv_eq_ediv (by omega) (le_of_lt hs)]
  have h1 := Int.ediv_add_emod (d + s - 1) s
  have h2 : 0 ≤ (d + s - 1) % s := Int.emod_nonneg _ (by omega)
  have h3 : (d + s - 1) % s < s := Int.emod_lt_of_pos _ hs
  constructor <;> linarith

/-- Central success case of `narrow`: under valid inputs the result is
the strided view with `length` along `dim` and the offset advanced by
`start` strides (shared by the narrow, split and split_with_sizes
claims). -/
lemma narrow_ok (t : Tensor) (dim start length : Int)
    (h0 : 0 ≤ dim) (h1 : dim < (t.sizes.length : Int))
    (hstr : t.strides.length = t.sizes.length)
    (hs : 0 ≤ start) (hl : 0 < length)
    (hsl : start + length ≤ t.sizes.getD dim.toNat 0) :
    narrow t dim start length =
      .ok (.view ⟨t.sizes.set dim.toNat length, t.strides,
                  t.storage_offset + start * t.strides.getD dim.toNat 0⟩) := by
  have hwrap : maybe_wrap_dim dim (t.sizes.length : Int) = .ok dim :=
    maybe_wrap_dim_ok h0 h1
  have hne : ¬ (t.sizes.length = 0) := by omega
  unfold narrow
  rw [if_neg hne, hwrap]
  dsimp only
  rw [if_neg (by omega), if_neg (by omega)]
  unfold slice
  rw [if_neg (by omega : ¬ (t.sizes.length : Int) = 0), hwrap]
  dsimp only
  rw [if_neg (by omega : ¬ (1:Int) ≤ 0)]
  rw [if_neg (by omega : ¬ start < 0)]
  have hd2 : dim.toNat < t.sizes.length := by omega
  have hd3 : dim.toNat < t.strides.length := by rw [hstr]; omega
  simp only [if_neg (show ¬ start < 0 by omega),
             if_neg (show ¬ start ≥ t.sizes.getD dim.toNat 0 by omega),
             if_neg (show ¬ start + length < 0 by omega),
             if_neg (show ¬ start + length < start by omega)]
  have harith : start + length - start + 1 - 1 = length := by ring
  rcases le_or_lt (t.sizes.getD dim.toNat 0) (start + length) with hge | hlt
  · have heq : start + length = t.sizes.getD dim.toNat 0 := le_antisymm hsl hge
    rw [if_pos (by omega : start + length ≥ t.sizes.getD dim.toNat 0), ← heq]
    rw [if_neg (by omega : ¬ start + length - start = 0), harith, Int.tdiv_one, mul_one,
        set_getD_self _ _ hd3]
  · rw [if_neg (by omega : ¬ start + length ≥ t.sizes.getD dim.toNat 0)]
    rw [if_neg (by omega : ¬ start + length - start = 0), harith, Int.tdiv_one, mul_one,
        set_getD_self _ _ hd3]

end ATen
namespace ATen

lemma permuteGo_id (t : Tensor) :
    ∀ (k i : Nat) (seen : List Bool), i + k ≤ t.sizes.length →
      (∀ j, i ≤ j → seen.getD j false = false) →
      permuteGo t ((List.range' i k).map (Nat.cast : Nat → Int)) seen =
        .ok ((List.range' i k).map (fun j => t.sizes.getD j 0),
             (List.range' i k).map (fun j => t.strides.getD j 0)) := by
  intro k
  induction k with
  | zero => intro i seen _ _; rfl
  | succ k ih =>
    intro i seen hik hseen
    rw [List.range'_succ]
    simp only [List.map_cons]
    unfold permuteGo
    have hw : maybe_wrap_dim (i : Int) (t.sizes.length : Int) = .ok i :=
      maybe_wrap_dim_ok (by omega) (by omega)
    rw [hw]
    dsimp only
    simp only [Int.toNat_natCast, hseen i (Nat.le_refl i), Bool.false_eq_true, if_false]
    rw [ih (i + 1) (seen.set i true) (by omega)
      (fun j hj => by rw [getD_set_ne seen (by omega) true]; exact hseen j (by omega))]

theorem permute_id_aux (t : Tensor) (hstr : t.strides.length = t.sizes.length) :
    permute t (idPerm t.rank) = .ok t := by
  have hlen : (idPerm t.rank).length = t.sizes.length := by
    unfold idPerm Tensor.rank
    rw [List.length_map, List.length_range]
  have hid : idPerm t.rank = (List.range' 0 t.sizes.length).map (Nat.cast : Nat → Int) := by
    unfold idPerm Tensor.rank
    rw [List.range_eq_range']
  unfold permute
  rw [if_neg (by omega)]
  rw [hid, permuteGo_id t t.sizes.length 0 _ (by omega)
    (fun j _ => getD_replicate_false _ _)]
  dsimp only
  have hs : (List.range' 0 t.sizes.length).map (fun j => t.sizes.getD j 0) = t.sizes := by
    rw [← List.range_eq_range']; exact range_map_getD _
  have hst : (List.range' 0 t.sizes.length).map (fun j => t.strides.getD j 0) = t.strides := by
    rw [← hstr, ← List.range_eq_range']; exact range_map_getD _
  rw [hs, hst]

end ATen
namespace ATen

/-- C10: the implicit flag passed to expand never influences the computed
geometry or the failure behavior: both flag values give identical results
on every tensor and every target size list. -/
theorem expand_ignores_implicit_flag (t : Tensor) (size : List Int) (b1 b2 : Bool) :
    expand t size b1 = expand t size b2 := rfl

/-- C4: whenever infer_size accepts a requested shape and the element
count is zero, the returned shape is the collapsed single-dimension [0],
regardless of the requested rank. -/
theorem infer_size_zero_numel_collapses (shape : List Int) (numel : Int) (res : List Int)
    (hok : infer_size shape numel = .ok res) (hz : numel = 0) : res = [0] := by
  subst hz
  unfold infer_size at hok
  cases h : inferLoop shape 0 1 none with
  | error e => rw [h] at hok; exact Except.noConfusion hok
  | ok p =>
    obtain ⟨newsize, inferDim⟩ := p
    rw [h] at hok
    dsimp only at hok
    split at hok
    · cases inferDim with
      | some d =>
        dsimp only at hok
        split at hok
        · exact Except.noConfusion hok
        · rw [if_pos rfl] at hok
          exact (Except.ok.inj hok).symm
      | none =>
        rw [if_pos rfl] at hok
        exact (Except.ok.inj hok).symm
    · exact Except.noConfusion hok

/-- Witness for infer_size_zero_numel_collapses at the accepted
zero-element shape [2,0,3]. -/
theorem infer_size_zero_numel_collapses_witness :
    infer_size [2, 0, 3] 0 = .ok [0] ∧ ([0] : List Int) = [0] :=
  ⟨by decide, infer_size_zero_numel_collapses [2, 0, 3] 0 [0] (by decide) rfl⟩

/-- C9: transpose with two equal normalized dimensions and permute with
the identity permutation both return the identical view: same sizes,
strides and storage offset. -/
theorem transpose_self_and_permute_identity_noop (t : Tensor) (d : Int)
    (hstr : t.strides.length = t.sizes.length)
    (h0 : 0 ≤ d) (h1 : d < (t.sizes.length : Int)) :
    transpose t d d = .ok t ∧ permute t (idPerm t.rank) = .ok t := by
  constructor
  · have hw : maybe_wrap_dim d (t.sizes.length : Int) = .ok d := maybe_wrap_dim_ok h0 h1
    unfold transpose
    dsimp only
    rw [hw]
    dsimp only
    rw [if_pos rfl]
  · exact permute_id_aux t hstr

/-- Witness for transpose_self_and_permute_identity_noop on a concrete
2x3 strided view. -/
theorem transpose_self_and_permute_identity_noop_witness :
    transpose ⟨[2, 3], [3, 1], 5⟩ 1 1 = .ok ⟨[2, 3], [3, 1], 5⟩ ∧
      permute ⟨[2, 3], [3, 1], 5⟩ (idPerm (Tensor.rank ⟨[2, 3], [3, 1], 5⟩)) =
        .ok ⟨[2, 3], [3, 1], 5⟩ :=
  transpose_self_and_permute_identity_noop ⟨[2, 3], [3, 1], 5⟩ 1 (by decide)
    (by decide) (by decide)

/-- C1 counterexample: at the rank-1 tensor of size 5, slice(0, 3, 2, 1)
clamps the end up to the start, giving length zero, and the code then
returns a fresh empty tensor rather than the view with size 0, stride 1
and offset 3 the claim describes. -/
theorem slice_zero_length_returns_fresh_empty :
    slice ⟨[5], [1], 0⟩ 0 3 2 1 = .ok .freshEmpty ∧
      (Except.ok SliceResult.freshEmpty : Except Err SliceResult) ≠
        .ok (.view ⟨[0], [1], 3⟩) :=
  ⟨by decide, by decide⟩

/-- C3 counterexample: infer_size([-1,4], 0) is accepted (newsize 4 > 0
divides 0) but returns the collapsed shape [0], not [0,4] with the free
dimension set to 0/4. -/
theorem infer_size_free_dim_zero_numel_counterexample :
    infer_size [-1, 4] 0 = .ok [0] ∧
      (Except.ok [0] : Except Err (List Int)) ≠ .ok [0, 4] :=
  ⟨by decide, by decide⟩

/-- C6 counterexample: on a rank-1 tensor of size 4, the list [0,4] has
only non-negative entries summing exactly to the dimension size, yet
split_with_sizes fails, because the zero-length first part is rejected by
narrow's positive-length requirement. -/
theorem split_with_sizes_zero_entry_counterexample :
    split_with_sizes ⟨[4], [1], 0⟩ [0, 4] 0 = .error .indexOutOfRange ∧
      (∀ l ∈ [(0 : Int), 4], 0 ≤ l) ∧ List.sum [(0 : Int), 4] = 4 :=
  ⟨by decide, by decide, by decide⟩

/-- C7 counterexample: on a rank-1 tensor with dimension size 0 and
split_size 2, none of the claim's failure conditions hold and the claim
predicts one zero-length part, but the code fails: the single part is a
zero-length narrow, which is rejected. -/
theorem split_zero_size_dim_counterexample :
    split ⟨[0], [1], 0⟩ 2 0 = .error .indexOutOfRange :=
  by decide

end ATen
namespace ATen

/-- C2: for a tensor of positive rank and a normalized dim, select
accepts exactly the indices in [-size(dim), size(dim)), wrapping a
negative index once; on success it drops the dimension from sizes and
strides (rank decreases by one) and advances the offset by the wrapped
index times strides[dim]; on a rank-0 tensor it always fails. -/
theorem select_contract (t : Tensor) (dim index : Int)
    (h0 : 0 ≤ dim) (h1 : dim < (t.sizes.length : Int)) :
    (¬ (-(t.sizes.getD dim.toNat 0) ≤ index ∧ index < t.sizes.getD dim.toNat 0) →
        select t dim index = .error .indexOutOfRange) ∧
    ((-(t.sizes.getD dim.toNat 0) ≤ index ∧ index < t.sizes.getD dim.toNat 0) →
        select t dim index =
          .ok ⟨t.sizes.eraseIdx dim.toNat, t.strides.eraseIdx dim.toNat,
               t.storage_offset +
                 (if index < 0 then index + t.sizes.getD dim.toNat 0 else index) *
                   t.strides.getD dim.toNat 0⟩ ∧
        (t.sizes.eraseIdx dim.toNat).length = t.sizes.length - 1) ∧
    (∀ t2 : Tensor, t2.sizes.length = 0 → ∀ d2 i2 : Int,
        select t2 d2 i2 = .error .zeroDimTensor) := by
  have hw : maybe_wrap_dim dim (t.sizes.length : Int) = .ok dim := maybe_wrap_dim_ok h0 h1
  refine ⟨?_, ?_, ?_⟩
  · intro hnot
    unfold select
    dsimp only
    rw [if_neg (by omega), hw]
    dsimp only
    rw [if_pos (by omega)]
  · intro hin
    unfold select
    dsimp only
    rw [if_neg (by omega), hw]
    dsimp only
    rw [if_neg (by omega)]
    refine ⟨rfl, ?_⟩
    rw [List.length_eraseIdx, if_pos (by omega)]
  · intro t2 h2 d2 i2
    unfold select
    dsimp only
    rw [if_pos (by omega)]

/-- Witness for select_contract: a negative index wraps once, here
selecting row -2 of a 5x3 view lands at offset (-2+5)*3 = 9. -/
theorem select_contract_witness :
    select ⟨[5, 3], [3, 1], 0⟩ 0 (-2) = .ok ⟨[3], [1], 9⟩ := by
  have h := (select_contract ⟨[5, 3], [3, 1], 0⟩ 0 (-2)
    (by decide) (by decide)).2.1 (by decide)
  exact h.1.trans (by decide)

/-- C5: narrow requires rank > 0, failing with ZeroDimTensor on every
rank-0 tensor; on a positive-rank tensor with a normalized dim it
succeeds exactly when 0 <= start, 0 < length and start + length <=
size(dim), in which case it returns exactly slice(dim, start,
start+length, 1); the concrete [5,3] instance narrows to shape [2,3]
with the offset advanced by 1*stride(0). -/
theorem narrow_contract (t : Tensor) (dim start length : Int)
    (h0 : 0 ≤ dim) (h1 : dim < (t.sizes.length : Int))
    (hstr : t.strides.length = t.sizes.length) :
    ((0 ≤ start ∧ 0 < length ∧ start + length ≤ t.sizes.getD dim.toNat 0) →
        narrow t dim start length = slice t dim start (start + length) 1 ∧
        narrow t dim start length =
          .ok (.view ⟨t.sizes.set dim.toNat length, t.strides,
                      t.storage_offset + start * t.strides.getD dim.toNat 0⟩)) ∧
    (¬ (0 ≤ start ∧ 0 < length ∧ start + length ≤ t.sizes.getD dim.toNat 0) →
        narrow t dim start length = .error .indexOutOfRange) ∧
    (∀ t2 : Tensor, t2.sizes.length = 0 → ∀ d2 s2 l2 : Int,
        narrow t2 d2 s2 l2 = .error .zeroDimTensor) ∧
    narrow ⟨[5, 3], [3, 1], 0⟩ 0 1 2 = .ok (.view ⟨[2, 3], [3, 1], 3⟩) := by
  have hw : maybe_wrap_dim dim (t.sizes.length : Int) = .ok dim := maybe_wrap_dim_ok h0 h1
  refine ⟨?_, ?_, ?_, by decide⟩
  · rintro ⟨hs, hl, hsl⟩
    constructor
    · unfold narrow
      rw [if_neg (by omega), hw]
      dsimp only
      rw [if_neg (by omega), if_neg (by omega)]
    · exact narrow_ok t dim start length h0 h1 hstr hs hl hsl
  · intro hnot
    unfold narrow
    rw [if_neg (by omega), hw]
    dsimp only
    by_cases hs : start < 0
    · rw [if_pos hs]
    · rw [if_neg hs, if_pos (by omega)]
  · intro t2 h2 d2 s2 l2
    unfold narrow
    rw [if_pos h2]

/-- Witness for narrow_contract at the concrete [5,3] instance of the
claim, together with the rank-0 failure clause at a concrete rank-0
tensor. -/
theorem narrow_contract_witness :
    narrow ⟨[5, 3], [3, 1], 0⟩ 0 1 2 = .ok (.view ⟨[2, 3], [3, 1], 3⟩) ∧
      narrow ⟨[], [], 0⟩ 0 0 1 = .error .zeroDimTensor := by
  constructor
  · have h := (narrow_contract ⟨[5, 3], [3, 1], 0⟩ 0 1 2
      (by decide) (by decide) (by decide)).1 (by decide)
    exact h.2.trans (by decide)
  · exact (narrow_contract ⟨[5, 3], [3, 1], 0⟩ 0 1 2
      (by decide) (by decide) (by decide)).2.2.1 ⟨[], [], 0⟩ rfl 0 0 1

/-- C8: unsqueeze fails on every zero-element tensor; otherwise, with dim
normalized against rank+1 (so the end position is valid), it inserts a
size-1 dimension at the normalized position whose stride is
sizes[dim]*strides[dim] before an existing dimension and 1 at the end,
leaving all other sizes and strides (and the offset) unchanged. -/
theorem unsqueeze_contract (t : Tensor) (dim : Int) :
    (t.numel = 0 → ∃ e, unsqueeze t dim = .error e) ∧
    (∀ d : Int, maybe_wrap_dim dim ((t.sizes.length : Int) + 1) = .ok d → t.numel ≠ 0 →
        unsqueeze t dim =
          .ok ⟨t.sizes.insertIdx d.toNat 1,
               t.strides.insertIdx d.toNat
                 (if d ≥ (t.sizes.length : Int) then 1
                  else t.sizes.getD d.toNat 0 * t.strides.getD d.toNat 0),
               t.storage_offset⟩) := by
  constructor
  · intro hz
    unfold unsqueeze
    rcases hw : maybe_wrap_dim dim ((t.sizes.length : Int) + 1) with e | d
    · exact ⟨e, rfl⟩
    · dsimp only
      unfold inferUnsqueezeGeometry
      rw [if_pos hz]
      exact ⟨.emptyTensor, rfl⟩
  · intro d hw hnz
    unfold unsqueeze
    rw [hw]
    dsimp only
    unfold inferUnsqueezeGeometry
    rw [if_neg hnz]

/-- Witness for unsqueeze_contract: failure on a zero-element tensor and
the end-position insertion on a 2x3 tensor. -/
theorem unsqueeze_contract_witness :
    (∃ e, unsqueeze ⟨[0, 3], [3, 1], 0⟩ 0 = .error e) ∧
      unsqueeze ⟨[2, 3], [3, 1], 5⟩ 2 = .ok ⟨[2, 3, 1], [3, 1, 1], 5⟩ := by
  constructor
  · exact (unsqueeze_contract ⟨[0, 3], [3, 1], 0⟩ 0).1 (by decide)
  · have h := (unsqueeze_contract ⟨[2, 3], [3, 1], 5⟩ 2).2 2 (by decide) (by decide)
    exact h.trans (by decide)

end ATen
namespace ATen

lemma inferLoop_nonneg (l : List Int) :
    ∀ (idx : Nat) (acc : Int) (dOpt : Option Nat), (∀ s ∈ l, 0 ≤ s) →
      inferLoop l idx acc dOpt = .ok (acc * l.prod, dOpt) := by
  induction l with
  | nil => intro idx acc dOpt _; simp [inferLoop]
  | cons s rest ih =>
    intro idx acc dOpt hall
    have hs : 0 ≤ s := hall s (List.mem_cons_self _ _)
    unfold inferLoop
    rw [if_neg (by omega), if_pos (by omega)]
    rw [ih (idx + 1) (acc * s) dOpt (fun x hx => hall x (List.mem_cons_of_mem _ hx))]
    rw [List.prod_cons, mul_assoc]

lemma inferLoop_free (post : List Int) (pre : List Int) :
    ∀ (idx : Nat) (acc : Int), (∀ s ∈ pre, 0 ≤ s) → (∀ s ∈ post, 0 ≤ s) →
      inferLoop (pre ++ -1 :: post) idx acc none =
        .ok (acc * pre.prod * post.prod, some (idx + pre.length)) := by
  induction pre with
  | nil =>
    intro idx acc _ hpost
    rw [List.nil_append]
    unfold inferLoop
    rw [if_pos rfl]
    rw [inferLoop_nonneg post (idx + 1) acc (some idx) hpost]
    simp
  | cons s rest ih =>
    intro idx acc hpre hpost
    have hs : 0 ≤ s := hpre s (List.mem_cons_self _ _)
    rw [List.cons_append]
    unfold inferLoop
    rw [if_neg (by omega), if_pos (by omega)]
    rw [ih (idx + 1) (acc * s) (fun x hx => hpre x (List.mem_cons_of_mem _ hx)) hpost]
    rw [List.prod_cons, List.length_cons]
    have h1 : acc * s * rest.prod = acc * (s * rest.prod) := by ring
    have h2 : idx + 1 + rest.length = idx + (rest.length + 1) := by omega
    rw [h1, h2]

lemma set_append_cons (pre post : List Int) (a b : Int) :
    (pre ++ a :: post).set pre.length b = pre ++ b :: post := by
  induction pre with
  | nil => rfl
  | cons x rest ih =>
    show x :: (rest ++ a :: post).set rest.length b = x :: (rest ++ b :: post)
    rw [ih]

/-- C3 amended: infer_size on a shape of all non-negative entries succeeds
exactly when their product equals numel; with a single -1 among otherwise
non-negative entries it succeeds exactly when the product of the others is
positive and divides numel, the free dimension being set to their quotient
whenever numel is non-zero (a zero numel instead collapses the result, see
the zero-element rule); infer_size([-1,4],12) = [3,4] and
infer_size([-1,4],10) fails with ShapeMismatch. -/
theorem infer_size_contract (shape : List Int) (numel : Int) :
    ((∀ s ∈ shape, 0 ≤ s) →
        ((∃ r, infer_size shape numel = .ok r) ↔ numel = shape.prod)) ∧
    (∀ pre post, shape = pre ++ -1 :: post →
        (∀ s ∈ pre, 0 ≤ s) → (∀ s ∈ post, 0 ≤ s) →
        ((∃ r, infer_size shape numel = .ok r) ↔
            0 < pre.prod * post.prod ∧ numel.tmod (pre.prod * post.prod) = 0) ∧
        (numel ≠ 0 → 0 < pre.prod * post.prod → numel.tmod (pre.prod * post.prod) = 0 →
            infer_size shape numel =
              .ok (pre ++ numel.tdiv (pre.prod * post.prod) :: post))) ∧
    infer_size [-1, 4] 12 = .ok [3, 4] ∧
    infer_size [-1, 4] 10 = .error .shapeMismatch := by
  refine ⟨?_, ?_, by decide, by decide⟩
  · intro hall
    unfold infer_size
    rw [inferLoop_nonneg shape 0 1 none hall, one_mul]
    dsimp only
    constructor
    · rintro ⟨r, hr⟩
      by_cases h : numel = shape.prod
      · exact h
      · rw [if_neg (by simp [h])] at hr
        exact Except.noConfusion hr
    · intro h
      rw [if_pos (Or.inl h)]
      by_cases hz : numel = 0
      · exact ⟨[0], by rw [if_pos hz]⟩
      · exact ⟨shape, by rw [if_neg hz]⟩
  · intro pre post hsh hpre hpost
    subst hsh
    have hP : 0 ≤ pre.prod * post.prod :=
      mul_nonneg (List.prod_nonneg hpre) (List.prod_nonneg hpost)
    constructor
    · unfold infer_size
      rw [inferLoop_free post pre 0 1 hpre hpost, one_mul]
      dsimp only
      constructor
      · rintro ⟨r, hr⟩
        by_cases hc : numel = pre.prod * post.prod ∨
            ((some (0 + pre.length)).isSome ∧ pre.prod * post.prod > 0 ∧
              numel.tmod (pre.prod * post.prod) = 0)
        · rw [if_pos hc] at hr
          by_cases hz : pre.prod * post.prod = 0
          · rw [if_pos hz] at hr
            exact Except.noConfusion hr
          · refine ⟨by omega, ?_⟩
            rcases hc with hc | hc
            · rw [hc]; exact Int.tmod_self
            · exact hc.2.2
        · rw [if_neg hc] at hr
          exact Except.noConfusion hr
      · rintro ⟨hpos, hmod⟩
        rw [if_pos (Or.inr ⟨rfl, hpos, hmod⟩)]
        rw [if_neg (by omega)]
        by_cases hz : numel = 0
        · exact ⟨[0], by rw [if_pos hz]⟩
        · exact ⟨_, by rw [if_neg hz]⟩
    · intro hnz hpos hmod
      unfold infer_size
      rw [inferLoop_free post pre 0 1 hpre hpost, one_mul]
      dsimp only
      rw [if_pos (Or.inr ⟨rfl, hpos, hmod⟩), if_neg (by omega), if_neg hnz,
          Nat.zero_add, set_append_cons]

/-- Witness for infer_size_contract: the free dimension of [-1,4] with 12
elements is inferred as 12/4 = 3. -/
theorem infer_size_contract_witness :
    infer_size [-1, 4] 12 = .ok [3, 4] := by
  have h := ((infer_size_contract [-1, 4] 12).2.1 [] [4] rfl
    (by decide) (by decide)).2 (by decide) (by decide) (by decide)
  exact h.trans (by decide)

end ATen
namespace ATen

/-- Failure case of `narrow`: with valid rank and dim, a negative start, a
non-positive length, or an overshooting end makes narrow fail. -/
lemma narrow_err (t : Tensor) (dim start length : Int)
    (h0 : 0 ≤ dim) (h1 : dim < (t.sizes.length : Int))
    (hbad : start < 0 ∨ length ≤ 0 ∨ start + length > t.sizes.getD dim.toNat 0) :
    narrow t dim start length = .error .indexOutOfRange := by
  have hw : maybe_wrap_dim dim (t.sizes.length : Int) = .ok dim := maybe_wrap_dim_ok h0 h1
  unfold narrow
  rw [if_neg (by omega), hw]
  dsimp only
  by_cases hs : start < 0
  · rw [if_pos hs]
  · rw [if_neg hs, if_pos (by omega)]

lemma splitWithSizesGo_spec (t : Tensor) (dim dim_size : Int)
    (h0 : 0 ≤ dim) (h1 : dim < (t.sizes.length : Int))
    (hstr : t.strides.length = t.sizes.length)
    (hd : dim_size = t.sizes.getD dim.toNat 0) (ss : List Int) :
    ∀ (start : Int), 0 ≤ start →
      (((∀ l ∈ ss, 0 < l) ∧ start + ss.sum = dim_size) →
          splitWithSizesGo t dim dim_size ss start = .ok (swsSpecParts t dim.toNat ss start)) ∧
      (¬ ((∀ l ∈ ss, 0 < l) ∧ start + ss.sum = dim_size) →
          ∃ e, splitWithSizesGo t dim dim_size ss start = .error e) := by
  induction ss with
  | nil =>
    intro start hs
    constructor
    · rintro ⟨_, hsum⟩
      unfold splitWithSizesGo
      rw [if_pos (by simp at hsum; omega)]
      rfl
    · intro hnot
      unfold splitWithSizesGo
      rw [if_neg (by simp at hnot; omega)]
      exact ⟨_, rfl⟩
  | cons l rest ih =>
    intro start hs
    have hsumc : (l :: rest).sum = l + rest.sum := List.sum_cons
    constructor
    · rintro ⟨hall, hsum⟩
      have hl : 0 < l := hall l (List.mem_cons_self _ _)
      have hrest : ∀ x ∈ rest, 0 < x := fun x hx => hall x (List.mem_cons_of_mem _ hx)
      have hrsum : 0 ≤ rest.sum := List.sum_nonneg (fun x hx => le_of_lt (hrest x hx))
      unfold splitWithSizesGo
      rw [if_neg (by omega)]
      rw [narrow_ok t dim start l h0 h1 hstr hs hl (by rw [← hd]; omega)]
      dsimp only
      rw [(ih (start + l) (by omega)).1 ⟨hrest, by omega⟩]
      rfl
    · intro hnot
      unfold splitWithSizesGo
      by_cases hneg : l < 0
      · rw [if_pos hneg]
        exact ⟨_, rfl⟩
      · rw [if_neg hneg]
        by_cases hzero : l = 0
        · rw [narrow_err t dim start l h0 h1 (Or.inr (Or.inl (by omega)))]
          exact ⟨_, rfl⟩
        · have hl : 0 < l := by omega
          by_cases hover : start + l > t.sizes.getD dim.toNat 0
          · rw [narrow_err t dim start l h0 h1 (Or.inr (Or.inr hover))]
            exact ⟨_, rfl⟩
          · rw [narrow_ok t dim start l h0 h1 hstr (by omega) hl (by omega)]
            dsimp only
            have hnot2 : ¬ ((∀ x ∈ rest, 0 < x) ∧ start + l + rest.sum = dim_size) := by
              rintro ⟨hr, hsum2⟩
              exact hnot ⟨List.forall_mem_cons.mpr ⟨hl, hr⟩, by omega⟩
            obtain ⟨e, he⟩ := (ih (start + l) (by omega)).2 hnot2
            rw [he]
            exact ⟨e, rfl⟩

/-- C6 amended: split_with_sizes on a positive-rank tensor with a
normalized dim succeeds exactly when every entry is strictly positive and
the entries sum exactly to size(dim), in which case it produces one
narrowed view per entry at consecutive start positions; a negative entry
fails, and so does a zero entry (rejected by narrow's positive-length
requirement), as does any list whose sum differs from size(dim). -/
theorem split_with_sizes_contract (t : Tensor) (ss : List Int) (dim : Int)
    (h0 : 0 ≤ dim) (h1 : dim < (t.sizes.length : Int))
    (hstr : t.strides.length = t.sizes.length) :
    (((∀ l ∈ ss, 0 < l) ∧ ss.sum = t.sizes.getD dim.toNat 0) →
        split_with_sizes t ss dim = .ok (swsSpecParts t dim.toNat ss 0)) ∧
    (¬ ((∀ l ∈ ss, 0 < l) ∧ ss.sum = t.sizes.getD dim.toNat 0) →
        ∃ e, split_with_sizes t ss dim = .error e) := by
  have hw : maybe_wrap_dim dim (t.sizes.length : Int) = .ok dim := maybe_wrap_dim_ok h0 h1
  have hgo := splitWithSizesGo_spec t dim (t.sizes.getD dim.toNat 0) h0 h1 hstr rfl ss 0
    (le_refl 0)
  unfold split_with_sizes
  rw [if_neg (by omega), hw]
  dsimp only
  constructor
  · intro h
    exact hgo.1 ⟨h.1, by omega⟩
  · intro hnot
    exact hgo.2 (by rw [zero_add]; exact hnot)

/-- Witness for split_with_sizes_contract: splitting a size-4 dimension
into parts [1,3] yields two consecutive narrowed views. -/
theorem split_with_sizes_contract_witness :
    split_with_sizes ⟨[4], [1], 0⟩ [1, 3] 0 =
      .ok [.view ⟨[1], [1], 0⟩, .view ⟨[3], [1], 1⟩] := by
  have h := (split_with_sizes_contract ⟨[4], [1], 0⟩ [1, 3] 0
    (by decide) (by decide) (by decide)).1 (by decide)
  exact h.trans (by decide)

end ATen
namespace ATen

lemma splitSpecParts_length (t : Tensor) (dimn : Nat) (s d : Int) :
    ∀ (k i : Nat), (splitSpecParts t dimn s d k i).length = k := by
  intro k
  induction k with
  | zero => intro i; rfl
  | succ k ih => intro i; unfold splitSpecParts; rw [List.length_cons, ih (i + 1)]

lemma splitParts_zero (t : Tensor) (dim s last : Int) (i : Nat) :
    splitParts t dim s last 0 i = .ok [] := rfl

lemma splitSpecParts_zero (t : Tensor) (dimn : Nat) (s d : Int) (i : Nat) :
    splitSpecParts t dimn s d 0 i = [] := rfl

lemma splitSpecParts_succ (t : Tensor) (dimn : Nat) (s d : Int) (k i : Nat) :
    splitSpecParts t dimn s d (k + 1) i =
      SliceResult.view ⟨t.sizes.set dimn (if k = 0 then d - s * (i : Int) else s), t.strides,
          t.storage_offset + (i : Int) * s * t.strides.getD dimn 0⟩
        :: splitSpecParts t dimn s d k (i + 1) := rfl

lemma ceil_div_of_dvd {d s : Int} (hs : 0 < s) (hd : 0 < d) (hdvd : s ∣ d) :
    (d + s - 1).tdiv s = d.tdiv s := by
  obtain ⟨q, rfl⟩ := hdvd
  have hq : 0 < q := by nlinarith
  rw [Int.tdiv_eq_ediv (by nlinarith) (le_of_lt hs),
      Int.tdiv_eq_ediv (by nlinarith) (le_of_lt hs)]
  have h1 : s * q + s - 1 = (s - 1) + q * s := by ring
  rw [h1, Int.add_mul_ediv_right _ _ (by omega : s ≠ 0),
      Int.ediv_eq_zero_of_lt (by omega) (by omega), zero_add,
      mul_comm, Int.mul_ediv_cancel _ (by omega : s ≠ 0)]

lemma splitParts_ok (t : Tensor) (dim s d : Int)
    (h0 : 0 ≤ dim) (h1 : dim < (t.sizes.length : Int))
    (hstr : t.strides.length = t.sizes.length)
    (hd : d = t.sizes.getD dim.toNat 0) (hs : 0 < s) :
    ∀ (k : Nat), 1 ≤ k → ∀ (i : Nat) (last : Int),
      last = d - s * ((i : Int) + (k : Int) - 1) →
      s * ((i : Int) + (k : Int) - 1) < d →
      splitParts t dim s last k i = .ok (splitSpecParts t dim.toNat s d k i) := by
  intro k
  induction k with
  | zero => intro h; exact absurd h (by omega)
  | succ k ih =>
    intro _ i last hlast hbound
    by_cases hk : k = 0
    · subst hk
      have hone : (i : Int) + ((1 : Nat) : Int) - 1 = (i : Int) := by push_cast; ring
      rw [hone] at hlast hbound
      have hlpos : 0 < last := by rw [hlast]; linarith
      have hsum : (i : Int) * s + last = d := by rw [hlast]; ring
      unfold splitParts
      dsimp only
      rw [if_pos rfl]
      rw [narrow_ok t dim ((i : Int) * s) last h0 h1 hstr (by positivity) hlpos
        (by rw [← hd]; linarith)]
      rw [splitParts_zero]
      dsimp only
      rw [splitSpecParts_succ, splitSpecParts_zero, if_pos rfl, hlast]
    · have hcast : (i : Int) + ((k + 1 : Nat) : Int) - 1 = (i : Int) + (k : Int) := by
        push_cast; ring
      rw [hcast] at hlast hbound
      have hstep : s * ((i : Int) + 1) ≤ s * ((i : Int) + (k : Int)) := by
        apply mul_le_mul_of_nonneg_left ?_ (le_of_lt hs)
        have : (1 : Int) ≤ (k : Int) := by omega
        linarith
      have hmul : (i : Int) * s + s = s * ((i : Int) + 1) := by ring
      unfold splitParts
      dsimp only
      rw [if_neg hk]
      rw [narrow_ok t dim ((i : Int) * s) s h0 h1 hstr (by positivity) hs
        (by rw [← hd]; linarith)]
      dsimp only
      have hlast2 : last = d - s * (((i + 1 : Nat) : Int) + (k : Int) - 1) := by
        rw [hlast]; push_cast; ring
      have hbound2 : s * (((i + 1 : Nat) : Int) + (k : Int) - 1) < d := by
        have heq : (((i + 1 : Nat) : Int) + (k : Int) - 1) = (i : Int) + (k : Int) := by
          push_cast; ring
        rw [heq]; exact hbound
      rw [ih (by omega) (i + 1) last hlast2 hbound2]
      dsimp only
      rw [splitSpecParts_succ, if_neg hk]

/-- C7 amended: split on a positive-rank tensor with a normalized dim
succeeds exactly on a positive split_size and a positive dimension size,
producing ceil(size(dim)/split_size) narrowed parts (the max with 1 is
the ceiling itself here), every part of length split_size except the
last, whose length is size(dim) - split_size*(parts-1); when split_size
divides size(dim) the part count is the exact quotient, so all parts are
equal with no empty tail; it fails with ZeroDimTensor on every rank-0
tensor, and fails if split_size is negative, if split_size is 0 with a
non-zero dimension size, and also - contrary to the claim - whenever the
dimension size is 0, because the final zero-length narrow is rejected. -/
theorem split_contract (t : Tensor) (split_size dim : Int)
    (h0 : 0 ≤ dim) (h1 : dim < (t.sizes.length : Int))
    (hstr : t.strides.length = t.sizes.length) :
    (0 < split_size → 0 < t.sizes.getD dim.toNat 0 →
        split t split_size dim =
          .ok (splitSpecParts t dim.toNat split_size (t.sizes.getD dim.toNat 0)
            ((t.sizes.getD dim.toNat 0 + split_size - 1).tdiv split_size).toNat 0) ∧
        (splitSpecParts t dim.toNat split_size (t.sizes.getD dim.toNat 0)
            ((t.sizes.getD dim.toNat 0 + split_size - 1).tdiv split_size).toNat 0).length =
          ((t.sizes.getD dim.toNat 0 + split_size - 1).tdiv split_size).toNat) ∧
    (0 < split_size → 0 < t.sizes.getD dim.toNat 0 →
        split_size ∣ t.sizes.getD dim.toNat 0 →
        (t.sizes.getD dim.toNat 0 + split_size - 1).tdiv split_size =
          (t.sizes.getD dim.toNat 0).tdiv split_size) ∧
    (split_size < 0 → split t split_size dim = .error .negativeSplitSize) ∧
    (split_size = 0 → t.sizes.getD dim.toNat 0 ≠ 0 →
        split t split_size dim = .error .zeroSplitSize) ∧
    (0 ≤ split_size → t.sizes.getD dim.toNat 0 = 0 →
        split t split_size dim = .error .indexOutOfRange) ∧
    (∀ t2 : Tensor, t2.sizes.length = 0 → ∀ s2 d2 : Int,
        split t2 s2 d2 = .error .zeroDimTensor) := by
  have hw : maybe_wrap_dim dim (t.sizes.length : Int) = .ok dim := maybe_wrap_dim_ok h0 h1
  refine ⟨?_, ?_, ?_, ?_, ?_, ?_⟩
  · intro hsp hdp
    refine ⟨?_, splitSpecParts_length t dim.toNat split_size _ _ 0⟩
    unfold split
    rw [if_neg (by omega), if_neg (by omega), hw]
    dsimp only
    rw [if_pos (Or.inl hsp), if_pos (by omega : split_size ≠ 0)]
    obtain ⟨hb1, hb2⟩ := ceil_bounds hsp (le_of_lt hdp)
    have hq1 : 1 ≤ (t.sizes.getD dim.toNat 0 + split_size - 1).tdiv split_size := by
      nlinarith
    rw [max_eq_left hq1]
    apply splitParts_ok t dim split_size (t.sizes.getD dim.toNat 0) h0 h1 hstr rfl hsp
      _ (by omega) 0 _
    · rw [Int.toNat_of_nonneg (by omega)]; push_cast; ring
    · rw [Int.toNat_of_nonneg (by omega)]
      push_cast
      have : split_size * ((0 : Int) +
          (t.sizes.getD dim.toNat 0 + split_size - 1).tdiv split_size - 1) =
          split_size * ((t.sizes.getD dim.toNat 0 + split_size - 1).tdiv split_size) -
            split_size := by ring
      rw [this]
      linarith
  · intro hsp hdp hdvd
    exact ceil_div_of_dvd hsp hdp hdvd
  · intro hneg
    unfold split
    rw [if_neg (by omega), if_pos hneg]
  · intro hz hd0
    unfold split
    rw [if_neg (by omega), if_neg (by omega), hw]
    dsimp only
    rw [if_neg (by omega)]
  · intro hnn hd0
    unfold split
    rw [if_neg (by omega), if_neg (by omega), hw]
    dsimp only
    rw [if_pos (Or.inr hd0)]
    simp only [hd0]
    by_cases hz : split_size = 0
    · subst hz
      norm_num
      unfold splitParts
      dsimp only
      rw [if_pos rfl]
      rw [show ((0 : Nat) : Int) * (0 : Int) = 0 by norm_num]
      rw [narrow_err t dim 0 0 h0 h1 (Or.inr (Or.inl (le_refl 0)))]
    · rw [if_pos (show split_size ≠ 0 from hz)]
      have htd : ((0 : Int) + split_size - 1).tdiv split_size = 0 := by
        rw [show (0 : Int) + split_size - 1 = split_size - 1 by ring,
            Int.tdiv_eq_ediv (by omega) (by omega),
            Int.ediv_eq_zero_of_lt (by omega) (by omega)]
      rw [htd]
      norm_num
      unfold splitParts
      dsimp only
      rw [if_pos rfl]
      rw [show ((0 : Nat) : Int) * split_size = 0 by norm_num]
      rw [narrow_err t dim 0 0 h0 h1 (Or.inr (Or.inl (le_refl 0)))]
  · intro t2 h2 s2 d2
    unfold split
    rw [if_pos h2]

end ATen
namespace ATen

/-- Witness for split_contract: a size-7 dimension split by 3 gives parts
of lengths 3, 3, 1 at consecutive offsets, and a rank-0 tensor is
rejected with ZeroDimTensor. -/
theorem split_contract_witness :
    split ⟨[7], [1], 0⟩ 3 0 =
      .ok [.view ⟨[3], [1], 0⟩, .view ⟨[3], [1], 3⟩, .view ⟨[1], [1], 6⟩] ∧
      split ⟨[], [], 0⟩ 3 0 = .error .zeroDimTensor := by
  constructor
  · have h := ((split_contract ⟨[7], [1], 0⟩ 3 0 (by decide) (by decide) (by decide)).1
      (by decide) (by decide)).1
    exact h.trans (by decide)
  · exact (split_contract ⟨[7], [1], 0⟩ 3 0 (by decide) (by decide)
      (by decide)).2.2.2.2.2 ⟨[], [], 0⟩ rfl 3 0

lemma clampedStart_eq (start sd : Int) (h : 0 ≤ sd) :
    (if (if start < 0 then start + sd else start) < 0 then 0
     else if (if start < 0 then start + sd else start) ≥ sd then sd
     else (if start < 0 then start + sd else start)) = clampedStart start sd := by
  unfold clampedStart wrapIdx
  split_ifs <;> omega

lemma clampedEnd_eq (ending sd start2 : Int) (_h : 0 ≤ sd) (_h2 : 0 ≤ start2)
    (h3 : start2 ≤ sd) :
    (if (if ending < 0 then ending + sd else ending) < start2 then start2
     else if (if ending < 0 then ending + sd else ending) ≥ sd then sd
     else (if ending < 0 then ending + sd else ending)) = clampedEnd ending sd start2 := by
  unfold clampedEnd wrapIdx
  split_ifs <;> omega

lemma clampedStart_bounds (start sd : Int) (h : 0 ≤ sd) :
    0 ≤ clampedStart start sd ∧ clampedStart start sd ≤ sd := by
  unfold clampedStart wrapIdx
  split_ifs <;> omega

lemma slice_eq (t : Tensor) (dim start ending step : Int)
    (h0 : 0 ≤ dim) (h1 : dim < (t.sizes.length : Int)) (hstep : 0 < step)
    (hsz : 0 ≤ t.sizes.getD dim.toNat 0) :
    slice t dim start ending step =
      (if clampedEnd ending (t.sizes.getD dim.toNat 0)
            (clampedStart start (t.sizes.getD dim.toNat 0)) -
          clampedStart start (t.sizes.getD dim.toNat 0) = 0 then .ok .freshEmpty
       else .ok (.view ⟨t.sizes.set dim.toNat
            ((clampedEnd ending (t.sizes.getD dim.toNat 0)
                (clampedStart start (t.sizes.getD dim.toNat 0)) -
              clampedStart start (t.sizes.getD dim.toNat 0) + step - 1).tdiv step),
          t.strides.set dim.toNat (t.strides.getD dim.toNat 0 * step),
          t.storage_offset +
            clampedStart start (t.sizes.getD dim.toNat 0) *
              t.strides.getD dim.toNat 0⟩)) := by
  have hw : maybe_wrap_dim dim (t.sizes.length : Int) = .ok dim := maybe_wrap_dim_ok h0 h1
  obtain ⟨hcs0, hcs1⟩ := clampedStart_bounds start _ hsz
  unfold slice
  rw [if_neg (by omega), hw]
  dsimp only
  rw [if_neg (by omega)]
  rw [clampedStart_eq start _ hsz, clampedEnd_eq ending _ _ hsz hcs0 hcs1]

/-- C1 amended: slice on a positive-rank tensor with a normalized dim and
non-negative dimension size rejects a non-positive step with
NonPositiveStep; with a positive step it first adds size(dim) to a
negative start or end, clamps the start into [0, size(dim)] and the end
into [start, size(dim)] (forcing end up to start when end < start); when
the clamped length is positive the result is a view whose size along dim
is the round-up quotient of the length by step (characterized by the two
ceiling inequalities), whose stride along dim is the old stride times
step, and whose storage offset is the old offset plus the clamped start
times the old stride; when the clamped length is zero, the code instead
returns a fresh empty tensor, not a view. -/
theorem slice_contract (t : Tensor) (dim start ending step : Int)
    (h0 : 0 ≤ dim) (h1 : dim < (t.sizes.length : Int))
    (hsz : 0 ≤ t.sizes.getD dim.toNat 0) :
    (step ≤ 0 → slice t dim start ending step = .error .nonPositiveStep) ∧
    (0 < step →
      ∀ start2 end2, start2 = clampedStart start (t.sizes.getD dim.toNat 0) →
        end2 = clampedEnd ending (t.sizes.getD dim.toNat 0) start2 →
        (end2 = start2 → slice t dim start ending step = .ok .freshEmpty) ∧
        (start2 < end2 →
          slice t dim start ending step =
            .ok (.view ⟨t.sizes.set dim.toNat ((end2 - start2 + step - 1).tdiv step),
                 t.strides.set dim.toNat (t.strides.getD dim.toNat 0 * step),
                 t.storage_offset + start2 * t.strides.getD dim.toNat 0⟩) ∧
          end2 - start2 ≤ step * ((end2 - start2 + step - 1).tdiv step) ∧
          step * ((end2 - start2 + step - 1).tdiv step - 1) < end2 - start2)) := by
  constructor
  · intro hstep
    have hw : maybe_wrap_dim dim (t.sizes.length : Int) = .ok dim := maybe_wrap_dim_ok h0 h1
    unfold slice
    rw [if_neg (by omega), hw]
    dsimp only
    rw [if_pos hstep]
  · intro hstep start2 end2 hs2 he2
    subst hs2
    subst he2
    constructor
    · intro heq
      rw [slice_eq t dim start ending step h0 h1 hstep hsz, if_pos (by omega)]
    · intro hlt
      rw [slice_eq t dim start ending step h0 h1 hstep hsz, if_neg (by omega)]
      obtain ⟨hb1, hb2⟩ := ceil_bounds hstep
        (by omega :
          (0 : Int) ≤ clampedEnd ending (t.sizes.getD dim.toNat 0)
              (clampedStart start (t.sizes.getD dim.toNat 0)) -
            clampedStart start (t.sizes.getD dim.toNat 0))
      refine ⟨rfl, hb1, ?_⟩
      rw [mul_sub, mul_one]
      linarith

/-- Witness for slice_contract: a positive-length strided slice of a
rank-1 tensor and a zero-length slice collapsing to a fresh empty
tensor. -/
theorem slice_contract_witness :
    slice ⟨[5], [1], 0⟩ 0 1 5 2 = .ok (.view ⟨[2], [2], 1⟩) ∧
      slice ⟨[5], [1], 0⟩ 0 3 2 1 = .ok .freshEmpty := by
  constructor
  · have h := ((slice_contract ⟨[5], [1], 0⟩ 0 1 5 2 (by decide) (by decide)
      (by decide)).2 (by decide) _ _ rfl rfl).2 (by decide)
    exact h.1.trans (by decide)
  · exact ((slice_contract ⟨[5], [1], 0⟩ 0 3 2 1 (by decide) (by decide)
      (by decide)).2 (by decide) _ _ rfl rfl).1 (by decide)

end ATen
